import Mathlib

/-!
Shallow embedding of the xsd2ts core (src/src/convert.ts, first draft) together
with the small JavaScript semantics it relies on (truthiness, `Number`,
`JSON.stringify`, `Array.prototype.join`, insertion-ordered `Map`).  The
definitions mirror the TypeScript source; theorems settle the frozen claims.
-/

namespace Xsd2Ts

/-- JS `Array.prototype.join(sep)`: empty list gives `""`, otherwise the
elements separated by `sep` (also used as the spec-level union builder). -/
def joinSep (sep : String) : List String → String
  | [] => ""
  | [x] => x
  | x :: y :: xs => x ++ sep ++ joinSep sep (y :: xs)

/-- JS `||` on strings: the left operand unless it is falsy (empty). -/
def jsOr (s d : String) : String :=
  if s.isEmpty then d else s

/-- Insertion-ordered map lookup (JS `Map.prototype.get`). -/
def lookupMap {α : Type} (m : List (String × α)) (k : String) : Option α :=
  (m.find? (fun p => p.1 = k)).map (fun p => p.2)

/-- Insertion-ordered map update (JS `Map.prototype.set`): replaces the value
in place when the key exists, otherwise appends. -/
def setMap {α : Type} (m : List (String × α)) (k : String) (v : α) :
    List (String × α) :=
  match m with
  | [] => [(k, v)]
  | (k', v') :: rest => if k' = k then (k, v) :: rest else (k', v') :: setMap rest k v

/-- Number of entries of the map carrying the key `k`. -/
def countKey {α : Type} (m : List (String × α)) (k : String) : Nat :=
  (m.filter (fun p => p.1 = k)).length

/-- JS `String.prototype.split` for a one-character separator (the source only
splits on `":"`, `"\n"` and `"."`), on the character list. -/
def splitChar (sep : Char) : List Char → List String
  | [] => [""]
  | c :: cs =>
    let r := splitChar sep cs
    if c = sep then "" :: r
    else
      match r with
      | [] => [String.mk [c]]
      | h :: t => String.mk (c :: h.data) :: t

/-- JS `s.split(sep)` for a one-character separator. -/
def jsSplit (sep : Char) (s : String) : List String :=
  splitChar sep s.data

/-- JS `String.prototype.startsWith`. -/
def strStartsWith (s p : String) : Bool :=
  p.data.isPrefixOf s.data

/-- JS `String.prototype.trim` (whitespace stripped from both ends). -/
def trimChars (s : String) : String :=
  String.mk (((s.data.dropWhile Char.isWhitespace).reverse.dropWhile Char.isWhitespace).reverse)

/-- JS `String.prototype.replaceAll` for a one-character pattern. -/
def replaceAllChar (pat : Char) (rep : String) (s : String) : String :=
  String.join (s.data.map (fun c => if c = pat then rep else String.singleton c))

/-- `prefixLines` from src/src/utils.ts: splits on newlines and rebuilds the
text with `pre` prepended to every line (`s += (s && "\n") + prefix + line`). -/
def prefixLines (text pre : String) : String :=
  (jsSplit '\n' text).foldl
    (fun s line => s ++ (if s.isEmpty then "" else "\n") ++ pre ++ line) ""

/-- A JavaScript number as the core observes it: the facet / occurrence logic
only ever compares against `0` and `1` and prints, so an exact rational plus
the three non-finite values is a faithful model. -/
inductive JsNum where
  | nan : JsNum
  | inf : JsNum
  | ninf : JsNum
  | fin : ℚ → JsNum
deriving DecidableEq

/-- JS `x > 1` on a number. -/
def JsNum.gtOne : JsNum → Bool
  | .inf => true
  | .fin q => decide (1 < q)
  | _ => false

/-- JS `x === 0` on a number. -/
def JsNum.eqZero : JsNum → Bool
  | .fin q => decide (q = 0)
  | _ => false

/-- JS truthiness of a number: everything but `0` and `NaN`. -/
def JsNum.truthy : JsNum → Bool
  | .fin q => decide (q ≠ 0)
  | .nan => false
  | _ => true

/-- Digit run to a natural number. -/
def digitsToNat (ds : List Char) : Nat :=
  ds.foldl (fun n c => n * 10 + (c.toNat - 48)) 0

/-- Decimal digits of the fractional part of `r / d`, with fuel. -/
def fracDigits : Nat → Nat → Nat → String
  | 0, _, _ => ""
  | _, 0, _ => ""
  | fuel + 1, r, d =>
    String.singleton (Nat.digitChar (r * 10 / d)) ++ fracDigits fuel (r * 10 % d) d

/-- Rendering of a finite JS number by a template literal (exact for the
integers the core actually prints). -/
def ratToJsString (q : ℚ) : String :=
  if q.den = 1 then toString q.num
  else
    (if q < 0 then "-" else "")
      ++ toString (q.num.natAbs / q.den) ++ "."
      ++ fracDigits 30 (q.num.natAbs % q.den) q.den

/-- Rendering of a JS number by a template literal. -/
def JsNum.toJsString : JsNum → String
  | .nan => "NaN"
  | .inf => "Infinity"
  | .ninf => "-Infinity"
  | .fin q => ratToJsString q

/-- Power of ten as a rational, for decimal exponents. -/
def pow10 (e : Int) : ℚ :=
  if 0 ≤ e then ((10 : ℚ)) ^ e.toNat else 1 / ((10 : ℚ)) ^ (-e).toNat

/-- Exponent tail of a JS decimal literal (after the mantissa): empty means
exponent `0`; otherwise `e`/`E`, an optional sign and a digit run. -/
def parseExpPart : List Char → Option Int
  | [] => some 0
  | 'e' :: rest => parseSignedNat rest
  | 'E' :: rest => parseSignedNat rest
  | _ => none
where
  parseSignedNat : List Char → Option Int
    | '+' :: r => if r ≠ [] ∧ r.all Char.isDigit then some (digitsToNat r) else none
    | '-' :: r => if r ≠ [] ∧ r.all Char.isDigit then some (-(digitsToNat r : Int)) else none
    | r => if r ≠ [] ∧ r.all Char.isDigit then some (digitsToNat r) else none

/-- Unsigned JS decimal literal: `digits[.digits?]` or `.digits`, then an
optional exponent; `none` when the characters are not such a literal. -/
def parseUnsignedDec (cs : List Char) : Option ℚ :=
  let ip := cs.takeWhile Char.isDigit
  let rest := cs.dropWhile Char.isDigit
  match rest with
  | '.' :: rest2 =>
    let fp := rest2.takeWhile Char.isDigit
    let rest3 := rest2.dropWhile Char.isDigit
    if ip = [] ∧ fp = [] then none
    else
      (parseExpPart rest3).map (fun e =>
        ((digitsToNat ip : ℚ) + (digitsToNat fp : ℚ) / ((10 : ℚ)) ^ fp.length) * pow10 e)
  | _ =>
    if ip = [] then none
    else (parseExpPart rest).map (fun e => (digitsToNat ip : ℚ) * pow10 e)

/-- Hexadecimal digit run to a natural number, `none` on a non-hex digit. -/
def hexToNat (cs : List Char) : Option Nat :=
  cs.foldl
    (fun acc c =>
      acc.bind (fun n =>
        if c.isDigit then some (n * 16 + (c.toNat - 48))
        else if 'a' ≤ c ∧ c ≤ 'f' then some (n * 16 + (c.toNat - 87))
        else if 'A' ≤ c ∧ c ≤ 'F' then some (n * 16 + (c.toNat - 55))
        else none))
    (some 0)

/-- JS `Number(string)`: trimmed, empty is `0`, `Infinity` forms, `0x` hex,
decimal literals, anything else `NaN`. -/
def jsStringToNumber (s : String) : JsNum :=
  let t := trimChars s
  if t = "" then .fin 0
  else if t = "Infinity" ∨ t = "+Infinity" then .inf
  else if t = "-Infinity" then .ninf
  else
    match t.data with
    | '0' :: 'x' :: r =>
      match hexToNat r with
      | some n => if r = [] then .nan else .fin n
      | none => .nan
    | '0' :: 'X' :: r =>
      match hexToNat r with
      | some n => if r = [] then .nan else .fin n
      | none => .nan
    | '+' :: r => match parseUnsignedDec r with | some q => .fin q | none => .nan
    | '-' :: r => match parseUnsignedDec r with | some q => .fin (-q) | none => .nan
    | r => match parseUnsignedDec r with | some q => .fin q | none => .nan

/-- A scalar as delivered by the external XML parser: attribute values reach
the core either as strings or as already-converted numbers. -/
inductive JsValue where
  | str : String → JsValue
  | num : JsNum → JsValue
deriving DecidableEq

/-- JS truthiness of a parsed attribute value. -/
def JsValue.truthy : JsValue → Bool
  | .str s => !s.isEmpty
  | .num n => n.truthy

/-- JS `v !== lit` for a string literal `lit`. -/
def JsValue.strictNeString (v : JsValue) (lit : String) : Bool :=
  match v with
  | .str s => s ≠ lit
  | .num _ => true

/-- JS `Number(v)` on a parsed attribute value. -/
def JsValue.toNumber : JsValue → JsNum
  | .str s => jsStringToNumber s
  | .num n => n

/-- One JSON-escaped character as `JSON.stringify` emits it. -/
def jsonEscapeChar (c : Char) : String :=
  if c = '"' then "\\\""
  else if c = '\\' then "\\\\"
  else if c = '\x08' then "\\b"
  else if c = '\x09' then "\\t"
  else if c = '\x0a' then "\\n"
  else if c = '\x0c' then "\\f"
  else if c = '\x0d' then "\\r"
  else if c.toNat < 32 then
    "\\u00" ++ String.singleton (Nat.digitChar (c.toNat / 16))
      ++ String.singleton (Nat.digitChar (c.toNat % 16))
  else String.singleton c

/-- `JSON.stringify` applied to a string. -/
def jsonStringify (s : String) : String :=
  "\"" ++ String.join (s.data.map jsonEscapeChar) ++ "\""

/-- The matcher of the source regex `^\d+(\.\d+)?$`: a digit run, optionally
followed by a dot and a second digit run. -/
def isNumericLit (s : String) : Bool :=
  !(s.data.takeWhile Char.isDigit).isEmpty &&
    (match s.data.dropWhile Char.isDigit with
     | [] => true
     | '.' :: r => !r.isEmpty && r.all Char.isDigit
     | _ => false)

/-- What the regex `^\d+(\.\d+)?$` denotes, written out as the claim reads it:
either a non-empty digit string, or two non-empty digit strings joined by a
single dot. -/
def numericLitShape (s : String) : Prop :=
  (s ≠ "" ∧ ∀ c ∈ s.data, c.isDigit) ∨
    (∃ a b : String, s = a ++ "." ++ b ∧ a ≠ "" ∧ b ≠ "" ∧
      (∀ c ∈ a.data, c.isDigit) ∧ (∀ c ∈ b.data, c.isDigit))

/-- Word splitter of the modelled `toPascalCase`: maximal alphanumeric runs,
broken at a lower-to-upper case change and at a letter/digit boundary.
`acc` holds the current word reversed. -/
def splitWordsAux : List Char → List Char → List (List Char)
  | acc, [] => if acc.isEmpty then [] else [acc.reverse]
  | acc, c :: rest =>
    if !c.isAlphanum then
      (if acc.isEmpty then [] else [acc.reverse]) ++ splitWordsAux [] rest
    else
      match acc with
      | [] => splitWordsAux [c] rest
      | p :: _ =>
        if (p.isLower && c.isUpper) || (p.isDigit != c.isDigit) then
          acc.reverse :: splitWordsAux [c] rest
        else splitWordsAux (c :: acc) rest

/-- Capitalisation of one word: first character upper-cased, rest lower-cased. -/
def capWord : List Char → String
  | [] => ""
  | c :: cs => String.mk (c.toUpper :: cs.map Char.toLower)

/-- Modelled from the external `@std/text` collaborator (not part of this
repository): `toPascalCase` splits the input into words and capitalises each,
joined without separators; an ASCII-faithful approximation sufficient for the
identifiers the theorems touch, and exact on the empty string. -/
def toPascalCase (s : String) : String :=
  String.join ((splitWordsAux [] s.data).map capWord)

/-- A lazy `(namespace, name)` pointer (class `TypeReference`); the `ctx`
back-reference of the source object is passed to the rendering functions
explicitly. -/
structure TypeReference where
  ns : String
  name : String
deriving DecidableEq

/-- Ordered documentation strings (class `Annotations`). -/
structure Annotations where
  documentation : List String
deriving DecidableEq

/-- `Annotations.toTSDoc`: each documentation entry prefixed as a doc-comment
body line-wise, entries joined by a blank comment line. -/
def Annotations.toTSDoc (a : Annotations) : String :=
  joinSep "\n\n" (a.documentation.map (fun x => prefixLines x " * "))

/-- One enumeration entry of a `SimpleType`. -/
structure EnumVariant where
  value : String
  anns : Option Annotations
deriving DecidableEq

/-- Class `SimpleType`: a restriction base reference plus the optional facets
(each a JS number as produced by `Number`) and the optional enumeration.
The `annotations` field of the source is called `anns` here. -/
structure SimpleType where
  name : String
  type : TypeReference
  anns : Option Annotations
  minInclusive : Option JsNum
  totalDigits : Option JsNum
  fractionDigits : Option JsNum
  minLength : Option JsNum
  maxLength : Option JsNum
  pattern : Option String
  enumeration : Option (List EnumVariant)
deriving DecidableEq

/-- Class `Attribute`: `type` is `null` or a reference, `fixed` an optional
literal. -/
structure Attribute where
  name : String
  type : Option TypeReference
  required : Bool
  fixed : Option String
  anns : Option Annotations
deriving DecidableEq

mutual
/-- The `TypeReference | ComplexType` union of `Element.type`. -/
inductive ElementType where
  | ref : TypeReference → ElementType
  | inline : ComplexType → ElementType

/-- Class `Element`: occurrence bounds default to `0` / `Infinity`. -/
inductive Element where
  | mk : (name : String) → (type : ElementType) → (minOccurs : JsNum) →
      (maxOccurs : JsNum) → (anns : Option Annotations) → Element

/-- Class `ComplexType`: `variants` is the ordered list of alternative content
models, each the list of its elements; `attributes` the attribute fields. -/
inductive ComplexType where
  | mk : (name : String) → (anns : Option Annotations) →
      (variants : List (List Element)) → (attributes : List Attribute) → ComplexType
end

def Element.name : Element → String
  | .mk n _ _ _ _ => n

def Element.type : Element → ElementType
  | .mk _ t _ _ _ => t

def Element.minOccurs : Element → JsNum
  | .mk _ _ m _ _ => m

def Element.maxOccurs : Element → JsNum
  | .mk _ _ _ m _ => m

def Element.anns : Element → Option Annotations
  | .mk _ _ _ _ a => a

def ComplexType.name : ComplexType → String
  | .mk n _ _ _ => n

def ComplexType.anns : ComplexType → Option Annotations
  | .mk _ a _ _ => a

def ComplexType.variants : ComplexType → List (List Element)
  | .mk _ _ v _ => v

def ComplexType.attributes : ComplexType → List Attribute
  | .mk _ _ _ a => a

/-- The `TypeDefinition` variants registered in a schema's type table. -/
inductive TypeDefinition where
  | primitive : (name : String) → (tsType : String) → (pfx : String) → TypeDefinition
  | simple : SimpleType → TypeDefinition
  | complex : ComplexType → TypeDefinition

/-- The `name` of a registered type definition. -/
def TypeDefinition.name : TypeDefinition → String
  | .primitive n _ _ => n
  | .simple st => st.name
  | .complex ct => ct.name

/-- Class `Schema`: a per-namespace registry; the `namespace` field of the
source is called `ns` (a Lean keyword otherwise). -/
structure Schema where
  ns : String
  aliasedSchemas : List (String × String)
  elements : List (String × Element)
  types : List (String × TypeDefinition)

/-- A fresh schema for a namespace (the `Schema` constructor). -/
def Schema.new (ns : String) : Schema :=
  ⟨ns, [], [], []⟩

/-- Class `Context`: the process-wide registry; `attributePrefix` of the
source is called `attrPrefix` here. -/
structure Context where
  schemas : List (String × Schema)
  stripPrefixes : List String
  attrPrefix : String

/-- The prefix-stripping loop of `Context.getTSTypeName`: the first configured
prefix that starts the name is removed and the loop breaks. -/
def stripFirst : List String → String → String
  | [], name => name
  | p :: ps, name =>
    if strStartsWith name p then String.mk (name.data.drop p.length)
    else stripFirst ps name

/-- `Context.getTSTypeName`: strip the first matching configured prefix, then
PascalCase the remainder. -/
def Context.getTSTypeName (ctx : Context) (name : String) : String :=
  toPascalCase (stripFirst ctx.stripPrefixes name)

/-- `toTSTypeName` of each `TypeDefinition` class: the primitive's optional
collision prefix, then the centralised identifier conversion. -/
def TypeDefinition.toTSTypeName (ctx : Context) : TypeDefinition → String
  | .primitive n _ pfx => pfx ++ ctx.getTSTypeName n
  | .simple st => ctx.getTSTypeName st.name
  | .complex ct => ctx.getTSTypeName ct.name

/-- `TypeReference.toTSTypeExpr`: resolve against the registry at render time;
a miss (or an identifier that renders falsy) degrades to `"unknown"`. -/
def TypeReference.toTSTypeExpr (ctx : Context) (tr : TypeReference) : String :=
  jsOr
    ((lookupMap ctx.schemas tr.ns).bind (fun s => lookupMap s.types tr.name)
      |>.map (fun td => td.toTSTypeName ctx) |>.getD "")
    "unknown"

/-- `Attribute.toTSField`: quoted prefixed field name; the declared type or the
loose `string | number` fallback, overridden by a truthy `fixed` literal (plus
its bare numeric form when numeric-looking); optional unless required. -/
def Attribute.toTSField (ctx : Context) (a : Attribute) : String :=
  let fieldName := "\"" ++ ctx.attrPrefix ++ a.name ++ "\""
  let tsType := jsOr ((a.type.map (TypeReference.toTSTypeExpr ctx)).getD "") "string | number"
  let tsType :=
    match a.fixed with
    | some f =>
      if f.isEmpty then tsType
      else jsonStringify f ++ (if isNumericLit f then " | " ++ f else "")
    | none => tsType
  let s :=
    match a.anns with
    | some an => "/**\n" ++ an.toTSDoc ++ "\n */\n"
    | none => ""
  s ++ fieldName ++ (if !a.required then "?" else "") ++ ": " ++ tsType ++ ";"

/-- The inner double loop of `ComplexType.toTSTypeExpr` that appends, for every
variant other than the `i`-th, one explicitly-`undefined` field per element
(`body += "\n" + prefixLines("") + name + "?: undefined;"`). -/
def crossUndefs (variants : List (List Element)) (i : Nat) (body : String) : String :=
  variants.enum.foldl
    (fun b ov =>
      if ov.1 = i then b
      else ov.2.foldl
        (fun b e => b ++ "\n" ++ prefixLines "" "  " ++ e.name ++ "?: undefined;") b)
    body

/-- The union-body loop of `ComplexType.toTSTypeExpr`, with the per-variant
field text (`variant.elements.map(toTSField).join("\n")`) supplied in
`texts`, index-aligned with `variants`. -/
def assembleBody (variants : List (List Element)) (texts : List String) : String :=
  texts.enum.foldl
    (fun body it =>
      crossUndefs variants it.1
        (body ++ (if body.isEmpty then "" else " | ") ++ "\x7b\n" ++ prefixLines it.2 "  ")
      ++ "\n\x7d")
    ""

mutual
/-- `Element.toTSField`: the resolved (or inline) type expression, wrapped in
`Many<...>` when `maxOccurs > 1`, optional when `minOccurs === 0`, preceded by
a doc comment unless suppressed. -/
def Element.toTSField (ctx : Context) (omitDocs : Bool) : Element → String
  | .mk name ty minO maxO an =>
    let tsType := ElementType.exprStr ctx ty
    let tsType := if maxO.gtOne then "Many<" ++ tsType ++ ">" else tsType
    let s :=
      if an.isSome ∧ !omitDocs then
        "/**\n" ++ ((an.map Annotations.toTSDoc).getD "") ++ "\n */\n"
      else ""
    s ++ name ++ (if minO.eqZero then "?" else "") ++ ": " ++ tsType ++ ";"

/-- The `instanceof` dispatch at the head of `Element.toTSField`. -/
def ElementType.exprStr (ctx : Context) : ElementType → String
  | .ref tr => tr.toTSTypeExpr ctx
  | .inline ct => ComplexType.toTSTypeExpr ctx ct

/-- `ComplexType.toTSTypeExpr`: the open `XmlElement` base, intersected with
the attribute record when attributes exist, and with the (possibly
parenthesised union of) per-variant records when variants exist. -/
def ComplexType.toTSTypeExpr (ctx : Context) : ComplexType → String
  | .mk _ _ variants attrs =>
    let s := "XmlElement"
    let s :=
      if attrs.isEmpty then s
      else
        s ++ " & \x7b\n"
          ++ prefixLines (joinSep "\n" (attrs.map (Attribute.toTSField ctx))) "  "
          ++ "\n\x7d"
    let s :=
      if variants.isEmpty then s
      else
        let body := assembleBody variants (variantFieldTexts ctx variants)
        s ++ " & "
          ++ (if variants.length > 1 then "(" ++ body ++ ")" else body)
    jsOr s "unknown"

/-- Rendered field text of one variant's element list. -/
def fieldTexts (ctx : Context) : List Element → List String
  | [] => []
  | e :: es => Element.toTSField ctx false e :: fieldTexts ctx es

/-- Per-variant rendered field text, index-aligned with the variants. -/
def variantFieldTexts (ctx : Context) : List (List Element) → List String
  | [] => []
  | v :: vs => joinSep "\n" (fieldTexts ctx v) :: variantFieldTexts ctx vs
end

/-- `SimpleType.toTSType`, the type-expression part: the resolved base, fully
replaced by the enumeration-literal union when the enumeration is non-empty. -/
def SimpleType.tsTypeStr (ctx : Context) (st : SimpleType) : String :=
  let tsType := jsOr (st.type.toTSTypeExpr ctx) "unknown"
  if ((st.enumeration.getD []).isEmpty : Bool) then tsType
  else
    (st.enumeration.getD []).foldl
      (fun t v =>
        t ++ (if t.isEmpty then "" else " | ") ++ jsonStringify v.value
          ++ (if isNumericLit v.value then " | " ++ v.value else ""))
      ""

/-- The annotation and possible-values paragraphs of the `SimpleType` doc
comment (everything before the facet block). -/
def SimpleType.preFacetDocs (st : SimpleType) : String :=
  let docs :=
    match st.anns with
    | some an => an.toTSDoc
    | none => ""
  if (st.enumeration.getD []).any (fun x => !((x.anns.map Annotations.documentation).getD []).isEmpty) then
    (st.enumeration.getD []).foldl
      (fun docs v =>
        let first := (((v.anns.map Annotations.documentation).getD []).headD "")
        let docs := docs ++ "\n * - " ++ v.value ++ ": " ++ jsOr first ""
        (((v.anns.map Annotations.documentation).getD []).drop 1).foldl
          (fun docs line =>
            docs ++ " * " ++ String.mk (List.replicate (v.value.length + 3) ' ') ++ " " ++ line)
          docs)
      (docs ++ (if docs.isEmpty then "" else "\n *\n") ++ " * Possible values:")
  else docs

/-- One facet-appending step of the `SimpleType` doc block:
`docs += (docs && "\n") + line` when the facet is present. -/
def facetStep (docs : String) : Option String → String
  | some line => docs ++ (if docs.isEmpty then "" else "\n") ++ line
  | none => docs

/-- The six candidate facet lines, in the fixed source order Min, Total digits,
Fraction digits, Min length, Max length, Pattern. -/
def SimpleType.facetLineOpts (st : SimpleType) : List (Option String) :=
  [st.minInclusive.map (fun v => " * Min: " ++ v.toJsString),
   st.totalDigits.map (fun v => " * Total digits: " ++ v.toJsString),
   st.fractionDigits.map (fun v => " * Fraction digits: " ++ v.toJsString),
   st.minLength.map (fun v => " * Min length: " ++ v.toJsString),
   st.maxLength.map (fun v => " * Max length: " ++ v.toJsString),
   st.pattern.map (fun p => " * Pattern: /" ++ replaceAllChar '/' "\\/" p ++ "/")]

/-- Whether any of the six facets is set (`!= null` in the source guard). -/
def SimpleType.anyFacet (st : SimpleType) : Bool :=
  st.minInclusive.isSome || st.totalDigits.isSome || st.fractionDigits.isSome
    || st.minLength.isSome || st.maxLength.isSome || st.pattern.isSome

/-- The full doc text of `SimpleType.toTSType`: the leading paragraphs, then
(when any facet is set) a `\n *` separator and one line per present facet. -/
def SimpleType.docsStr (st : SimpleType) : String :=
  let docs := st.preFacetDocs
  if st.anyFacet then st.facetLineOpts.foldl facetStep (docs ++ "\n *")
  else docs

/-- `SimpleType.toTSType`: optional doc comment, then the declaration. -/
def SimpleType.toTSType (ctx : Context) (st : SimpleType) : String :=
  (if st.docsStr.isEmpty then "" else "/**\n" ++ st.docsStr ++ "\n */\n")
    ++ "export type " ++ ctx.getTSTypeName st.name ++ " = " ++ st.tsTypeStr ctx ++ ";"

/-- `ComplexType.toTSType`: optional doc comment, then the declaration. -/
def ComplexType.toTSType (ctx : Context) (ct : ComplexType) : String :=
  (match ct.anns with
   | some an => "/**\n" ++ jsOr an.toTSDoc "" ++ "\n */\n"
   | none => "")
    ++ "export type " ++ ctx.getTSTypeName ct.name ++ " = "
    ++ ComplexType.toTSTypeExpr ctx ct ++ ";"

/-- `toTSType` across the `TypeDefinition` variants. -/
def TypeDefinition.toTSType (ctx : Context) : TypeDefinition → String
  | .primitive n tsType pfx => "export type " ++ (pfx ++ ctx.getTSTypeName n) ++ " = " ++ tsType ++ ";"
  | .simple st => st.toTSType ctx
  | .complex ct => ct.toTSType ctx

/-- `Element.toTSTypeName`: the centralised identifier plus `Element`. -/
def Element.toTSTypeName (ctx : Context) (e : Element) : String :=
  ctx.getTSTypeName e.name ++ "Element"

/-- `Element.toTSType` (top-level declaration): `Prolog` intersected with the
element's own field record, doc comment duplicated only at the type level. -/
def Element.toTSType (ctx : Context) (e : Element) : String :=
  (match e.anns with
   | some an => "/**\n" ++ jsOr an.toTSDoc "" ++ "\n */\n"
   | none => "")
    ++ "export type " ++ e.toTSTypeName ctx ++ " = Prolog & \x7b\n"
    ++ prefixLines (Element.toTSField ctx true e) "  " ++ "\n\x7d;"

/-- The accumulation step of `Schema.toTS`: skip falsy renderings, blank-line
separate the rest. -/
def tsBlockStep (acc t : String) : String :=
  if t.isEmpty then acc else acc ++ (if acc.isEmpty then "" else "\n\n") ++ t

/-- `Schema.toTS`: every registered type's declaration, then every registered
element's, in registration order. -/
def Schema.toTS (ctx : Context) (s : Schema) : String :=
  let s1 := (s.types.map (fun p => p.2)).foldl
    (fun acc ty => tsBlockStep acc (TypeDefinition.toTSType ctx ty)) ""
  (s.elements.map (fun p => p.2)).foldl
    (fun acc el => tsBlockStep acc (Element.toTSType ctx el)) s1

/-- The `ns ? this.aliasedSchemas.get(ns!) : this.namespace` step of
`Schema.resolveRef`: a falsy (absent or empty) alias part selects the schema's
own namespace, otherwise the alias table decides. -/
def resolveNsPart (self : Schema) (nsPart : Option String) : Option String :=
  match nsPart with
  | some a => if a.isEmpty then some self.ns else lookupMap self.aliasedSchemas a
  | none => some self.ns

/-- `Schema.resolveRef` on the already-split parts (`qualifiedName.split(":")`):
`name` is `parts.at(-1)`, the alias part is `parts.at(-2)`; falsy name or
resolved namespace, or more than two parts, give `null`. -/
def Schema.resolveRefParts (self : Schema) (parts : List String) : Option (String × String) :=
  let name := (parts.getLast?).getD ""
  let nsResolved : Option String :=
    resolveNsPart self (if parts.length ≥ 2 then parts[parts.length - 2]? else none)
  match nsResolved with
  | some nsv =>
    if name.isEmpty ∨ nsv.isEmpty ∨ parts.length > 2 then none else some (nsv, name)
  | none => none

/-- `Schema.resolveRef`: split on `":"` and resolve the parts. -/
def Schema.resolveRef (self : Schema) (node : String) : Option (String × String) :=
  self.resolveRefParts (jsSplit ':' node)

/-- A `T | T[]` value as the external parser delivers it (`Many<T>`). -/
inductive JsMany (α : Type) where
  | one : α → JsMany α
  | many : List α → JsMany α

/-- `asArray` from src/src/utils.ts. -/
def asArray {α : Type} : JsMany α → List α
  | .one a => [a]
  | .many l => l

/-- A `string | string[]` scalar (the `documentation` payload). -/
inductive JsStrOrList where
  | one : String → JsStrOrList
  | many : List String → JsStrOrList

/-- A parsed `annotation` node (`XsAnnotation`). -/
structure XsAnnotationNode where
  documentation : Option JsStrOrList

/-- `x["documentation"] || []` flat-mapped: a missing or falsy (empty-string)
payload contributes nothing, a string contributes itself, an array its items. -/
def docValue : Option JsStrOrList → List String
  | none => []
  | some (.one s) => if s.isEmpty then [] else [s]
  | some (.many l) => l

/-- `Annotations.fromXsd`. -/
def Annotations.fromXsd (node : JsMany XsAnnotationNode) : Annotations :=
  ⟨((asArray node).map (fun x => docValue x.documentation)).flatten⟩

/-- A facet node of a restriction (`{ "@_value": string | number }`). -/
structure XsFacetNode where
  value : JsValue

/-- One `enumeration` node of a restriction. -/
structure XsEnumNode where
  value : String
  ann : Option (JsMany XsAnnotationNode)

/-- A parsed `simpleType` node (`XsSimpleType`), restriction inlined. -/
structure XsSimpleTypeNode where
  nameAttr : String
  ann : Option (JsMany XsAnnotationNode)
  restrictionBase : String
  minInclusive : Option XsFacetNode
  totalDigits : Option XsFacetNode
  fractionDigits : Option XsFacetNode
  minLength : Option XsFacetNode
  maxLength : Option XsFacetNode
  pattern : Option String
  enumeration : List XsEnumNode

/-- A parsed `attribute` node (`XsAttribute`). -/
structure XsAttrNode where
  nameAttr : String
  typeAttr : Option String
  useAttr : Option String
  fixedAttr : Option String
  ann : Option (JsMany XsAnnotationNode)

mutual
/-- A parsed `element` node (`XsElement`): the source discriminates on the
presence of `@_ref`, then `@_type`, then falls back to the nested
`complexType` child. -/
inductive XsElementNode where
  | mk : (refAttr : Option String) → (nameAttr : String) →
      (typeAttr : Option String) → (complexType : Option XsComplexTypeBody) →
      (minOccursAttr : Option JsValue) → (maxOccursAttr : Option JsValue) →
      (ann : Option (JsMany XsAnnotationNode)) → XsElementNode

/-- The content of a parsed `complexType` node: `sequence`/`choice` element
lists (already `asArray`-normalised) and attribute nodes. -/
inductive XsComplexTypeBody where
  | mk : (ann : Option (JsMany XsAnnotationNode)) →
      (sequenceElements : List XsElementNode) →
      (choiceElements : List XsElementNode) →
      (attributes : List XsAttrNode) → XsComplexTypeBody
end

def XsElementNode.refAttr : XsElementNode → Option String
  | .mk r _ _ _ _ _ _ => r

def XsElementNode.nameAttr : XsElementNode → String
  | .mk _ n _ _ _ _ _ => n

def XsElementNode.typeAttr : XsElementNode → Option String
  | .mk _ _ t _ _ _ _ => t

def XsElementNode.complexType : XsElementNode → Option XsComplexTypeBody
  | .mk _ _ _ c _ _ _ => c

def XsElementNode.minOccursAttr : XsElementNode → Option JsValue
  | .mk _ _ _ _ m _ _ => m

def XsElementNode.maxOccursAttr : XsElementNode → Option JsValue
  | .mk _ _ _ _ _ m _ => m

def XsElementNode.ann : XsElementNode → Option (JsMany XsAnnotationNode)
  | .mk _ _ _ _ _ _ a => a

/-- The empty `complexType` body an element without `ref`, `type` and
`complexType` children spreads into `{ "@_name": name }`. -/
def XsComplexTypeBody.empty : XsComplexTypeBody :=
  .mk none [] [] []

/-- A top-level `complexType` node, carrying its `@_name`. -/
structure XsComplexTypeNode where
  nameAttr : String
  body : XsComplexTypeBody

/-- `TypeReference.fromXsd`: resolve through the owning schema; a `null`
resolution throws `Invalid type reference`. -/
def TypeReference.fromXsd (schema : Schema) (node : String) :
    Except String TypeReference :=
  match schema.resolveRef node with
  | none => .error ("Invalid type reference: " ++ node)
  | some r => .ok ⟨r.1, r.2⟩

/-- `Attribute.fromXsd`: a truthy `@_type` resolves (fatally on failure), a
truthy `@_fixed` is kept, `required` iff `@_use === "required"`. -/
def Attribute.fromXsd (schema : Schema) (node : XsAttrNode) :
    Except String Attribute := do
  let type ←
    match node.typeAttr with
    | some t =>
      if t.isEmpty then pure none
      else (TypeReference.fromXsd schema t).map some
    | none => pure none
  let fixed :=
    match node.fixedAttr with
    | some f => if f.isEmpty then none else some f
    | none => none
  pure ⟨node.nameAttr, type, node.useAttr = some "required", fixed,
    node.ann.map Annotations.fromXsd⟩

/-- `SimpleType.fromXsd`: the restriction base resolved fatally, facets taken
through `Number`, the enumeration kept only when non-empty. -/
def SimpleType.fromXsd (schema : Schema) (node : XsSimpleTypeNode) :
    Except String SimpleType := do
  let tr ← TypeReference.fromXsd schema node.restrictionBase
  let enumList := node.enumeration.map
    (fun x => EnumVariant.mk x.value (x.ann.map Annotations.fromXsd))
  pure
    { name := node.nameAttr
      type := tr
      anns := node.ann.map Annotations.fromXsd
      minInclusive := node.minInclusive.map (fun f => f.value.toNumber)
      totalDigits := node.totalDigits.map (fun f => f.value.toNumber)
      fractionDigits := node.fractionDigits.map (fun f => f.value.toNumber)
      minLength := node.minLength.map (fun f => f.value.toNumber)
      maxLength := node.maxLength.map (fun f => f.value.toNumber)
      pattern := node.pattern
      enumeration := if enumList.isEmpty then none else some enumList }

/-- The shared tail of `Element.fromXsd`: `minOccurs` defaults to `0` and
`maxOccurs` to `Infinity`; a truthy occurrence attribute (not the literal
`"unbounded"` for max) is converted with `Number`. -/
def elementOccurs (minA maxA : Option JsValue)
    (an : Option (JsMany XsAnnotationNode)) (name : String) (ty : ElementType) :
    Element :=
  let minO :=
    match minA with
    | some v => if v.truthy then v.toNumber else JsNum.fin 0
    | none => JsNum.fin 0
  let maxO :=
    match maxA with
    | some v => if v.truthy && v.strictNeString "unbounded" then v.toNumber else JsNum.inf
    | none => JsNum.inf
  .mk name ty minO maxO (an.map Annotations.fromXsd)

/-- The attribute loop of `ComplexType.fromXsd`. -/
def attrsFromXsd (schema : Schema) :
    List XsAttrNode → Except String (List Attribute)
  | [] => .ok []
  | n :: ns =>
    match Attribute.fromXsd schema n with
    | .error e => .error e
    | .ok a =>
      match attrsFromXsd schema ns with
      | .error e => .error e
      | .ok as_ => .ok (a :: as_)

mutual
/-- `Element.fromXsd`: a `@_ref` node copies the referenced element's name and
type, throwing when the reference is malformed or its target unregistered; a
`@_type` node resolves a lazy reference; otherwise the nested `complexType`
child is ingested inline under the element's name (an absent child spreads
into the empty body, which ingests to an empty complex type). -/
def Element.fromXsd (ctx : Context) (schema : Schema) :
    XsElementNode → Except String Element
  | .mk refAttr nameAttr typeAttr cty minA maxA an =>
    match refAttr with
    | some r =>
      match schema.resolveRef r with
      | none => .error ("Invalid element reference: " ++ r)
      | some ref =>
        match (lookupMap ctx.schemas ref.1).bind (fun s => lookupMap s.elements ref.2) with
        | none => .error ("Element not found: " ++ ref.1 ++ ":" ++ ref.2)
        | some el => .ok (elementOccurs minA maxA an el.name el.type)
    | none =>
      match typeAttr with
      | some t =>
        match TypeReference.fromXsd schema t with
        | .error e => .error e
        | .ok tr => .ok (elementOccurs minA maxA an nameAttr (.ref tr))
      | none =>
        match cty with
        | some b =>
          match ComplexType.fromXsdBody ctx schema nameAttr b with
          | .error e => .error e
          | .ok ct => .ok (elementOccurs minA maxA an nameAttr (.inline ct))
        | none =>
          .ok (elementOccurs minA maxA an nameAttr
            (.inline (.mk nameAttr none [] [])))

/-- `ComplexType.fromXsd` on a node body: a non-empty `sequence` contributes
one variant with all its elements, each `choice` element its own singleton
variant, then the attributes. -/
def ComplexType.fromXsdBody (ctx : Context) (schema : Schema) (name : String) :
    XsComplexTypeBody → Except String ComplexType
  | .mk an seqNodes choiceNodes attrNodes =>
    match elementsFromXsd ctx schema seqNodes with
    | .error e => .error e
    | .ok seq =>
      match elementsFromXsd ctx schema choiceNodes with
      | .error e => .error e
      | .ok choice =>
        match attrsFromXsd schema attrNodes with
        | .error e => .error e
        | .ok attrs =>
          .ok (.mk name (an.map Annotations.fromXsd)
            ((if seq.isEmpty then [] else [seq]) ++ choice.map (fun e => [e]))
            attrs)

/-- The element list of a `sequence`/`choice` group, left to right, first
throw wins. -/
def elementsFromXsd (ctx : Context) (schema : Schema) :
    List XsElementNode → Except String (List Element)
  | [] => .ok []
  | n :: ns =>
    match Element.fromXsd ctx schema n with
    | .error e => .error e
    | .ok el =>
      match elementsFromXsd ctx schema ns with
      | .error e => .error e
      | .ok els => .ok (el :: els)
end

/-- A parsed schema document root (`XsSchema`): its target namespace, the
`@_xmlns:*` alias declarations in key order, and the declaration lists
(`asArray`-normalised).  The `import` directives are excluded: resolving them
performs file/network IO, which the core treats as an external collaborator. -/
structure XsSchemaNode where
  targetNamespace : String
  xmlnsAttrs : List (String × String)
  elements : List XsElementNode
  simpleTypes : List XsSimpleTypeNode
  complexTypes : List XsComplexTypeNode

/-- Replace the schema registered under `ns` (the in-place mutation of the
shared `Schema` object). -/
def Context.updateSchema (ctx : Context) (ns : String) (f : Schema → Schema) :
    Context :=
  match lookupMap ctx.schemas ns with
  | some o => { ctx with schemas := setMap ctx.schemas ns (f o) }
  | none => ctx

/-- The current schema object under `ns`. -/
def Context.schemaAt (ctx : Context) (ns : String) : Schema :=
  (lookupMap ctx.schemas ns).getD (Schema.new ns)

/-- The element-registration loop of `Schema.fromXsd`
(`o.elements.set(element.name, element)`). -/
def ingestElements (ns : String) (nodes : List XsElementNode) (ctx : Context) :
    Except String Context :=
  nodes.foldlM
    (fun ctx n => do
      let el ← Element.fromXsd ctx (ctx.schemaAt ns) n
      pure (ctx.updateSchema ns
        (fun o => { o with elements := setMap o.elements el.name el })))
    ctx

/-- The simple-type registration loop of `Schema.fromXsd` (`o.addType`). -/
def ingestSimpleTypes (ns : String) (nodes : List XsSimpleTypeNode)
    (ctx : Context) : Except String Context :=
  nodes.foldlM
    (fun ctx n => do
      let st ← SimpleType.fromXsd (ctx.schemaAt ns) n
      pure (ctx.updateSchema ns
        (fun o => { o with types := setMap o.types st.name (.simple st) })))
    ctx

/-- The complex-type registration loop of `Schema.fromXsd` (`o.addType`). -/
def ingestComplexTypes (ns : String) (nodes : List XsComplexTypeNode)
    (ctx : Context) : Except String Context :=
  nodes.foldlM
    (fun ctx n => do
      let ct ← ComplexType.fromXsdBody ctx (ctx.schemaAt ns) n.nameAttr n.body
      pure (ctx.updateSchema ns
        (fun o => { o with types := setMap o.types ct.name (.complex ct) })))
    ctx

/-- `Schema.fromXsd`: select or create the schema of the document's target
namespace, record the alias declarations, then register elements, simple
types and complex types, in that order, threading the mutated context. -/
def Schema.fromXsd (ctx : Context) (node : XsSchemaNode) :
    Except String Context := do
  let ns := node.targetNamespace
  let ctx :=
    match lookupMap ctx.schemas ns with
    | some _ => ctx
    | none => { ctx with schemas := setMap ctx.schemas ns (Schema.new ns) }
  let ctx := ctx.updateSchema ns
    (fun o => { o with aliasedSchemas :=
      node.xmlnsAttrs.foldl (fun m p => setMap m p.1 p.2) o.aliasedSchemas })
  let ctx ← ingestElements ns node.elements ctx
  let ctx ← ingestSimpleTypes ns node.simpleTypes ctx
  ingestComplexTypes ns node.complexTypes ctx

/-! ## General lemmas about the string-accumulation patterns of the source -/

theorem append_ne_empty_left (s t : String) (h : s ≠ "") : s ++ t ≠ "" := by
  intro he
  have hd := congrArg String.data he
  rw [String.data_append] at hd
  have : s.data = [] ∧ t.data = [] := by simpa using hd
  exact h (String.ext this.1)

theorem append_ne_empty_right (s t : String) (h : t ≠ "") : s ++ t ≠ "" := by
  intro he
  have hd := congrArg String.data he
  rw [String.data_append] at hd
  have : s.data = [] ∧ t.data = [] := by simpa using hd
  exact h (String.ext this.2)

theorem isEmpty_false_of_ne {s : String} (h : s ≠ "") : s.isEmpty = false := by
  rw [Bool.eq_false_iff]
  intro hh
  exact h ((String.isEmpty_iff s).mp hh)

theorem ne_empty_of_data {s : String} (h : s.data ≠ []) : s ≠ "" := by
  intro he
  exact h (he ▸ rfl)

theorem foldl_append_eq (l : List String) :
    ∀ b : String, l.foldl (fun r s => r ++ s) b = b ++ String.join l := by
  induction l with
  | nil => intro b; simp [String.join, List.foldl]
  | cons x xs ih =>
    intro b
    show List.foldl _ (b ++ x) xs = _
    rw [ih]
    have : String.join (x :: xs) = ("" ++ x) ++ String.join xs := by
      show List.foldl _ ("" ++ x) xs = _
      rw [ih]
    rw [this]
    simp [String.append_assoc]

theorem join_nil : String.join [] = "" := rfl

theorem join_cons (x : String) (xs : List String) :
    String.join (x :: xs) = x ++ String.join xs := by
  show List.foldl _ ("" ++ x) xs = _
  rw [foldl_append_eq]
  simp

/-- A fold whose step appends a piece per item equals the start followed by
the joined pieces. -/
theorem foldl_extension {α : Type} (step : String → α → String) (h : α → String)
    (hs : ∀ b a, step b a = b ++ h a) :
    ∀ (l : List α) (b0 : String), l.foldl step b0 = b0 ++ String.join (l.map h) := by
  intro l
  induction l with
  | nil => intro b0; simp [List.foldl, join_nil]
  | cons a l ih =>
    intro b0
    simp only [List.foldl, List.map, hs, join_cons]
    rw [ih]
    simp [String.append_assoc]

/-- A fold with the `s += (s && sep) + f a` separator pattern, started from a
non-empty accumulator, appends `sep`-prefixed pieces. -/
theorem foldl_sep_from_ne {α : Type} (step : String → α → String) (f : α → String)
    (sep : String) (hs : ∀ b a, step b a = b ++ (if b.isEmpty then "" else sep) ++ f a) :
    ∀ (l : List α) (b0 : String), b0 ≠ "" →
      l.foldl step b0 = b0 ++ String.join (l.map (fun a => sep ++ f a)) := by
  intro l
  induction l with
  | nil => intro b0 _; simp [List.foldl, join_nil]
  | cons a l ih =>
    intro b0 hb0
    simp only [List.foldl, List.map, hs, isEmpty_false_of_ne hb0, if_neg, join_cons]
    rw [ih _ (append_ne_empty_left _ _ (append_ne_empty_left _ _ hb0))]
    simp [String.append_assoc]

theorem joinSep_cons_of_ne (sep : String) (xs : List String) :
    ∀ x, joinSep sep (x :: xs) = x ++ String.join (xs.map (fun a => sep ++ a)) := by
  induction xs with
  | nil => intro x; simp [joinSep, join_nil]
  | cons y ys ih =>
    intro x
    have e1 : joinSep sep (x :: y :: ys) = x ++ sep ++ joinSep sep (y :: ys) := rfl
    rw [e1, ih y]
    simp [List.map, join_cons, String.append_assoc]

/-- The `s += (s && sep) + f a` pattern started from the empty string is the
`sep`-separated join, provided every piece is itself non-empty. -/
theorem foldl_sep_eq_joinSep {α : Type} (step : String → α → String) (f : α → String)
    (sep : String) (hs : ∀ b a, step b a = b ++ (if b.isEmpty then "" else sep) ++ f a)
    (hf : ∀ a, f a ≠ "") :
    ∀ l : List α, l.foldl step "" = joinSep sep (l.map f) := by
  intro l
  cases l with
  | nil => simp [List.foldl, joinSep]
  | cons a l =>
    have h1 : step "" a = f a := by
      rw [hs]
      simp [String.isEmpty_iff]
    simp only [List.foldl, h1, List.map]
    rw [foldl_sep_from_ne step f sep hs l (f a) (hf a), joinSep_cons_of_ne]
    rw [List.map_map]
    rfl

theorem joinSep_append_of_ne (sep : String) (xs ys : List String)
    (hx : xs ≠ []) (hy : ys ≠ []) :
    joinSep sep (xs ++ ys) = joinSep sep xs ++ sep ++ joinSep sep ys := by
  induction xs with
  | nil => exact absurd rfl hx
  | cons x xs ih =>
    cases xs with
    | nil =>
      cases ys with
      | nil => exact absurd rfl hy
      | cons y ys => simp [joinSep]
    | cons x2 xs2 =>
      have h2 := ih (by simp)
      have e1 : (x :: x2 :: xs2) ++ ys = x :: ((x2 :: xs2) ++ ys) := rfl
      rw [e1]
      have e2 : ∀ zs : List String, zs ≠ [] → joinSep sep (x :: zs) = x ++ sep ++ joinSep sep zs := by
        intro zs hzs
        cases zs with
        | nil => exact absurd rfl hzs
        | cons w ws => rfl
      rw [e2 _ (by simp), e2 _ (by simp), h2]
      simp [String.append_assoc]

/-- Joining flattened piece lists equals joining the per-item joins, when no
item contributes an empty piece list. -/
theorem joinSep_flatten {α : Type} (sep : String) (pieces : α → List String)
    (hp : ∀ a, pieces a ≠ []) :
    ∀ l : List α,
      joinSep sep ((l.map pieces).flatten) = joinSep sep (l.map (fun a => joinSep sep (pieces a))) := by
  intro l
  induction l with
  | nil => rfl
  | cons a l ih =>
    cases l with
    | nil => simp [joinSep]
    | cons b l2 =>
      simp only [List.map, List.flatten]
      have hflat : pieces b ++ (List.map pieces l2).flatten
          = (List.map pieces (b :: l2)).flatten := rfl
      rw [joinSep_append_of_ne sep (pieces a) _ (hp a)
          (by
            cases hpb : pieces b with
            | nil => exact absurd hpb (hp b)
            | cons p ps => simp [hpb]),
        hflat, ih]
      have e2 : ∀ (z : String) (zs : List String), zs ≠ [] →
          joinSep sep (z :: zs) = z ++ sep ++ joinSep sep zs := by
        intro z zs hzs
        cases zs with
        | nil => exact absurd rfl hzs
        | cons w ws => rfl
      rw [e2 _ _ (by simp)]
      rfl

/-! ## Shared spec-side descriptions and bridging lemmas -/

/-- The doc-comment part of a rendered element field. -/
def elementDocsStr (omitDocs : Bool) (e : Element) : String :=
  if e.anns.isSome ∧ !omitDocs then
    "/**\n" ++ ((e.anns.map Annotations.toTSDoc).getD "") ++ "\n */\n"
  else ""

/-- The doc-comment part of a rendered attribute field. -/
def attrDocsStr (a : Attribute) : String :=
  match a.anns with
  | some an => "/**\n" ++ an.toTSDoc ++ "\n */\n"
  | none => ""

/-- Closed form of `Element.toTSField`: docs, name, optionality marker, and
the type expression wrapped in `Many` exactly when `maxOccurs > 1`. -/
theorem toTSField_closed (ctx : Context) (omitDocs : Bool) (e : Element) :
    Element.toTSField ctx omitDocs e =
      elementDocsStr omitDocs e ++ e.name ++ (if e.minOccurs.eqZero then "?" else "")
        ++ ": "
        ++ (if e.maxOccurs.gtOne then "Many<" ++ ElementType.exprStr ctx e.type ++ ">"
            else ElementType.exprStr ctx e.type)
        ++ ";" := by
  obtain ⟨n, ty, mi, ma, an⟩ := e
  simp only [Element.toTSField, elementDocsStr, Element.anns, Element.name,
    Element.minOccurs, Element.maxOccurs, Element.type]

def ctx0 : Context := ⟨[], [], "@_"⟩

/-! ## Claim C6 -/

/-- Claim C6: for every Element, the rendered field type is the `Many<...>`
wrapper applied to the element's resolved type expression if and only if
`maxOccurs > 1` (`Infinity`, the default, included); with `maxOccurs <= 1`
the unwrapped expression is used directly. -/
theorem claim_C6 (ctx : Context) (omitDocs : Bool) (e : Element) :
    (e.maxOccurs.gtOne = true →
      Element.toTSField ctx omitDocs e =
        elementDocsStr omitDocs e ++ e.name ++ (if e.minOccurs.eqZero then "?" else "")
          ++ ": " ++ ("Many<" ++ ElementType.exprStr ctx e.type ++ ">") ++ ";")
    ∧ (e.maxOccurs.gtOne = false →
      Element.toTSField ctx omitDocs e =
        elementDocsStr omitDocs e ++ e.name ++ (if e.minOccurs.eqZero then "?" else "")
          ++ ": " ++ ElementType.exprStr ctx e.type ++ ";")
    ∧ JsNum.inf.gtOne = true := by
  refine ⟨fun h => ?_, fun h => ?_, rfl⟩
  · rw [toTSField_closed, h]
    simp
  · rw [toTSField_closed, h]
    simp

def eW6 : Element := .mk "a" (.ref ⟨"n", "T"⟩) (.fin 0) .inf none

/-- Witness for C6: an element left at the default unbounded `maxOccurs`
renders with the `Many` wrapper. -/
theorem claim_C6_witness : Element.toTSField ctx0 false eW6 = "a?: Many<unknown>;" := by
  have h := (claim_C6 ctx0 false eW6).1 rfl
  rw [h]
  decide

/-! ## Claim C2 -/

/-- Claim C2: rendering a `TypeReference` whose `(namespace, name)` pair is
unregistered returns the string `"unknown"` (no error), whereas loading an
element node whose `ref=` target has no registered `Element` throws. -/
theorem claim_C2 :
    (∀ (ctx : Context) (tr : TypeReference),
      (lookupMap ctx.schemas tr.ns).bind (fun s => lookupMap s.types tr.name) = none →
      TypeReference.toTSTypeExpr ctx tr = "unknown")
    ∧ (∀ (ctx : Context) (schema : Schema) (node : XsElementNode) (r : String)
        (p : String × String),
      node.refAttr = some r →
      schema.resolveRef r = some p →
      (lookupMap ctx.schemas p.1).bind (fun s => lookupMap s.elements p.2) = none →
      Element.fromXsd ctx schema node =
        .error ("Element not found: " ++ p.1 ++ ":" ++ p.2)) := by
  constructor
  · intro ctx tr h
    unfold TypeReference.toTSTypeExpr
    rw [h]
    rfl
  · intro ctx schema node r p h1 h2 h3
    obtain ⟨rf, n, t, c, mi, ma, an⟩ := node
    simp only [XsElementNode.refAttr] at h1
    subst h1
    simp [Element.fromXsd, h2, h3]

def schW2 : Schema := Schema.new "ns"

def nodeW2 : XsElementNode := .mk (some "x") "x" none none none none none

/-- Witness for C2: an unregistered reference renders `"unknown"`, and a
`ref=` at an unregistered element aborts with `Element not found`. -/
theorem claim_C2_witness :
    TypeReference.toTSTypeExpr ctx0 ⟨"ns", "T"⟩ = "unknown"
    ∧ Element.fromXsd ctx0 schW2 nodeW2 = .error "Element not found: ns:x" := by
  constructor
  · exact claim_C2.1 ctx0 ⟨"ns", "T"⟩ rfl
  · exact claim_C2.2 ctx0 schW2 nodeW2 "x" ("ns", "x") rfl (by decide) rfl

/-! ## Claim C10 -/

theorem stripFirst_eq_find (ps : List String) (name : String) :
    stripFirst ps name =
      match ps.find? (fun p => strStartsWith name p) with
      | some p => String.mk (name.data.drop p.length)
      | none => name := by
  induction ps with
  | nil => rfl
  | cons p ps ih =>
    by_cases h : strStartsWith name p = true
    · simp [stripFirst, List.find?, h]
    · rw [Bool.not_eq_true] at h
      simp [stripFirst, List.find?, h, ih]

/-- Claim C10: at most one configured prefix is stripped (the first of
`stripPrefixes` that literally starts the name); a name equal to that first
matching prefix strips to the empty string, PascalCases to the empty
identifier, and its declaration is rendered with an empty name slot. -/
theorem claim_C10 :
    (∀ (ps : List String) (name : String),
      stripFirst ps name =
        match ps.find? (fun p => strStartsWith name p) with
        | some p => String.mk (name.data.drop p.length)
        | none => name)
    ∧ (∀ (ctx : Context) (name : String),
      ctx.stripPrefixes.find? (fun p => strStartsWith name p) = some name →
      ctx.getTSTypeName name = "")
    ∧ (∀ (ctx : Context) (st : SimpleType),
      ctx.stripPrefixes.find? (fun p => strStartsWith st.name p) = some st.name →
      SimpleType.toTSType ctx st =
        (if st.docsStr.isEmpty then "" else "/**\n" ++ st.docsStr ++ "\n */\n")
          ++ "export type " ++ "" ++ " = " ++ st.tsTypeStr ctx ++ ";") := by
  have key : ∀ (ctx : Context) (name : String),
      ctx.stripPrefixes.find? (fun p => strStartsWith name p) = some name →
      ctx.getTSTypeName name = "" := by
    intro ctx name h
    unfold Context.getTSTypeName
    rw [stripFirst_eq_find, h]
    show toPascalCase (String.mk (name.data.drop name.length)) = ""
    have hd : name.data.drop name.length = [] := by
      rw [show name.length = name.data.length from rfl]
      exact List.drop_length name.data
    rw [hd]
    rfl
  refine ⟨stripFirst_eq_find, key, ?_⟩
  intro ctx st h
  unfold SimpleType.toTSType
  rw [key ctx st.name h]

def ctxW10 : Context := ⟨[], ["foo"], "@_"⟩

/-- Witness for C10: with strip prefix `foo`, the name `foo` becomes the empty
identifier. -/
theorem claim_C10_witness : Context.getTSTypeName ctxW10 "foo" = "" :=
  claim_C10.2.1 ctxW10 "foo" (by decide)

/-! ## Claim C9 -/

theorem takeWhile_append_all (p : Char → Bool) (l1 l2 : List Char)
    (h : ∀ c ∈ l1, p c) : (l1 ++ l2).takeWhile p = l1 ++ l2.takeWhile p := by
  induction l1 with
  | nil => simp
  | cons c cs ih =>
    have hc : p c = true := h c (by simp)
    simp [List.takeWhile_cons, hc, ih (fun x hx => h x (by simp [hx]))]

theorem dropWhile_append_all (p : Char → Bool) (l1 l2 : List Char)
    (h : ∀ c ∈ l1, p c) : (l1 ++ l2).dropWhile p = l2.dropWhile p := by
  induction l1 with
  | nil => simp
  | cons c cs ih =>
    have hc : p c = true := h c (by simp)
    simp [List.dropWhile_cons, hc, ih (fun x hx => h x (by simp [hx]))]

theorem data_ne_nil_of_ne {s : String} (h : s ≠ "") : s.data ≠ [] := by
  intro hd
  exact h (String.ext hd)

theorem lookupMap_mem {α : Type} {m : List (String × α)} {k : String} {v : α}
    (h : lookupMap m k = some v) : (k, v) ∈ m := by
  unfold lookupMap at h
  cases hf : m.find? (fun p => p.1 = k) with
  | none => rw [hf] at h; simp at h
  | some pv =>
    rw [hf] at h
    have h' : pv.2 = v := by simpa using h
    have h1 := List.find?_some hf
    have h2 := List.mem_of_find?_eq_some hf
    simp only [decide_eq_true_eq] at h1
    have : (k, v) = pv := by
      rw [← h', ← h1]
    rw [this]
    exact h2

/-- Claim C9: a value gets the extra bare numeric-literal union member exactly
when it matches `^\d+(\.\d+)?$` (signed, exponent or leading-dot forms do
not), and an `Attribute` whose `fixed` value is the empty string skips the
fixed-literal narrowing, falling back to the declared or loose type. -/
theorem claim_C9 :
    (∀ s : String, isNumericLit s = true ↔ numericLitShape s)
    ∧ (isNumericLit "-1" = false ∧ isNumericLit "1e3" = false
        ∧ isNumericLit ".5" = false)
    ∧ (∀ (ctx : Context) (a : Attribute), a.fixed = some "" →
        Attribute.toTSField ctx a = Attribute.toTSField ctx { a with fixed := none })
    ∧ (∀ (ctx : Context) (a : Attribute) (f : String), a.fixed = some f → f ≠ "" →
        Attribute.toTSField ctx a =
          attrDocsStr a ++ "\"" ++ ctx.attrPrefix ++ a.name ++ "\""
            ++ (if !a.required then "?" else "") ++ ": "
            ++ (jsonStringify f ++ (if isNumericLit f then " | " ++ f else "")) ++ ";") := by
  refine ⟨?_, ⟨by decide, by decide, by decide⟩, ?_, ?_⟩
  · intro s
    constructor
    · intro h
      unfold isNumericLit at h
      rw [Bool.and_eq_true] at h
      obtain ⟨h1, h2⟩ := h
      have htw : s.data.takeWhile Char.isDigit ≠ [] := by
        intro hx
        rw [hx] at h1
        simp at h1
      split at h2
      · rename_i heq
        left
        have hall : s.data.takeWhile Char.isDigit ++ s.data.dropWhile Char.isDigit = s.data :=
          List.takeWhile_append_dropWhile Char.isDigit s.data
        rw [heq, List.append_nil] at hall
        constructor
        · exact ne_empty_of_data (hall ▸ htw)
        · intro c hc
          rw [← hall] at hc
          exact List.mem_takeWhile_imp hc
      · rename_i r heq
        rw [Bool.and_eq_true] at h2
        obtain ⟨hr1, hr2⟩ := h2
        right
        refine ⟨String.mk (s.data.takeWhile Char.isDigit), String.mk r, ?_, ?_, ?_, ?_, ?_⟩
        · apply String.ext
          simp only [String.data_append]
          show s.data = s.data.takeWhile Char.isDigit ++ ['.'] ++ r
          conv_lhs => rw [← List.takeWhile_append_dropWhile Char.isDigit s.data]
          rw [heq]
          simp
        · exact ne_empty_of_data htw
        · apply ne_empty_of_data
          show r ≠ []
          intro hx
          rw [hx] at hr1
          simp at hr1
        · intro c hc
          exact List.mem_takeWhile_imp hc
        · intro c hc
          exact List.all_eq_true.mp hr2 c hc
      · simp at h2
    · intro h
      unfold isNumericLit
      rcases h with ⟨hne, hdig⟩ | ⟨a, b, hs, ha, hb, hda, hdb⟩
      · have htw : s.data.takeWhile Char.isDigit = s.data := by
          have := takeWhile_append_all Char.isDigit s.data [] hdig
          simpa using this
        have hdw : s.data.dropWhile Char.isDigit = [] := by
          have := dropWhile_append_all Char.isDigit s.data [] hdig
          simpa using this
        rw [htw, hdw]
        simp [data_ne_nil_of_ne hne]
      · subst hs
        have hdata : (a ++ "." ++ b).data = a.data ++ ('.' :: b.data) := by
          simp [String.data_append]
        rw [hdata]
        rw [takeWhile_append_all Char.isDigit a.data ('.' :: b.data) hda]
        rw [dropWhile_append_all Char.isDigit a.data ('.' :: b.data) hda]
        have hdot : Char.isDigit '.' = false := by decide
        simp only [List.takeWhile_cons, hdot, Bool.false_eq_true, if_false,
          List.dropWhile_cons, List.append_nil]
        rw [Bool.and_eq_true]
        constructor
        · simp [data_ne_nil_of_ne ha]
        · show (match ('.' :: b.data : List Char) with
            | [] => true
            | '.' :: r => !r.isEmpty && r.all Char.isDigit
            | _ => false) = true
          simp only
          rw [Bool.and_eq_true]
          exact ⟨by simp [data_ne_nil_of_ne hb], List.all_eq_true.mpr hdb⟩
  · intro ctx a h
    obtain ⟨n, ty, req, fx, an⟩ := a
    simp only at h
    subst h
    rfl
  · intro ctx a f h hf
    obtain ⟨n, ty, req, fx, an⟩ := a
    simp only at h
    subst h
    simp only [Attribute.toTSField, attrDocsStr, isEmpty_false_of_ne hf,
      Bool.false_eq_true, if_false]
    simp [String.append_assoc]

def aW9 : Attribute := ⟨"x", none, false, some "", none⟩

def aW9f : Attribute := ⟨"f", none, false, some "7", none⟩

/-- Witness for C9: the empty fixed value keeps the loose type; the fixed
value `7` narrows to both the quoted and the bare literal. -/
theorem claim_C9_witness :
    numericLitShape "1.5"
    ∧ Attribute.toTSField ctx0 aW9 = "\"@_x\"?: string | number;"
    ∧ Attribute.toTSField ctx0 aW9f = "\"@_f\"?: \"7\" | 7;" := by
  refine ⟨(claim_C9.1 "1.5").mp (by decide), ?_, ?_⟩
  · have h := claim_C9.2.2.1 ctx0 aW9 rfl
    rw [h]
    decide
  · have h := claim_C9.2.2.2 ctx0 aW9f "7" rfl (by decide)
    rw [h]
    decide

/-! ## Claim C5 -/

/-- Claim C5 as written: an unaliased non-empty name resolves against the
schema's own namespace; a name with exactly one alias prefix resolves through
`aliasedSchemas`; `null` exactly on more than one separator, an alias with no
matching declaration, or an empty local-name part. -/
def resolveRefSpecC5 (self : Schema) (s : String) : Option (String × String) :=
  match jsSplit ':' s with
  | [name] => if name.isEmpty then none else some (self.ns, name)
  | [al, name] =>
    if name.isEmpty then none
    else
      match lookupMap self.aliasedSchemas al with
      | some uri => some (uri, name)
      | none => none
  | _ => none

/-- The amended behaviour on the split parts: an *empty* alias part is falsy
in the source and falls back to the schema's own namespace instead of being
looked up. -/
def resolveRefAmendedParts (self : Schema) : List String → Option (String × String)
  | [name] => if name.isEmpty then none else some (self.ns, name)
  | [al, name] =>
    if name.isEmpty then none
    else if al.isEmpty then some (self.ns, name)
    else
      match lookupMap self.aliasedSchemas al with
      | some uri => some (uri, name)
      | none => none
  | _ => none

/-- The amended `resolveRef` description of claim C5. -/
def resolveRefAmended (self : Schema) (s : String) : Option (String × String) :=
  resolveRefAmendedParts self (jsSplit ':' s)

def schW5 : Schema := Schema.new "ns"

/-- Counterexample to C5 as written: on `":foo"` the alias part is the empty
string, which is falsy, so the source resolves against the schema's own
namespace instead of returning `null` for an alias without declaration. -/
theorem claim_C5_counterexample :
    Schema.resolveRef schW5 ":foo" = some ("ns", "foo")
    ∧ resolveRefSpecC5 schW5 ":foo" = none := by
  constructor <;> decide

/-- Claim C5 (amended): as the claim says, except that an empty alias part
(falsy in the source) resolves against the schema's own namespace rather than
through `aliasedSchemas`; stated for schemas whose own namespace and aliased
namespace URIs are non-empty (falsy namespaces also yield `null`). -/
theorem claim_C5 (self : Schema) (s : String)
    (h1 : self.ns ≠ "") (h2 : ∀ p ∈ self.aliasedSchemas, p.2 ≠ "") :
    Schema.resolveRef self s = resolveRefAmended self s := by
  unfold Schema.resolveRef resolveRefAmended
  generalize jsSplit ':' s = parts
  match parts with
  | [] => rfl
  | [a] =>
    by_cases ha : a.isEmpty = true
    · simp [Schema.resolveRefParts, resolveRefAmendedParts, resolveNsPart, ha]
    · rw [Bool.not_eq_true] at ha
      simp [Schema.resolveRefParts, resolveRefAmendedParts, resolveNsPart, ha,
        isEmpty_false_of_ne h1]
  | [a, b] =>
    by_cases ha : a.isEmpty = true
    · by_cases hb : b.isEmpty = true
      · simp [Schema.resolveRefParts, resolveRefAmendedParts, resolveNsPart, ha, hb]
      · rw [Bool.not_eq_true] at hb
        simp [Schema.resolveRefParts, resolveRefAmendedParts, resolveNsPart, ha, hb,
          isEmpty_false_of_ne h1]
    · rw [Bool.not_eq_true] at ha
      cases hl : lookupMap self.aliasedSchemas a with
      | none =>
        simp [Schema.resolveRefParts, resolveRefAmendedParts, resolveNsPart, ha, hl]
      | some uri =>
        have huri : uri ≠ "" := h2 (a, uri) (lookupMap_mem hl)
        by_cases hb : b.isEmpty = true
        · simp [Schema.resolveRefParts, resolveRefAmendedParts, resolveNsPart, ha, hb, hl]
        · rw [Bool.not_eq_true] at hb
          simp [Schema.resolveRefParts, resolveRefAmendedParts, resolveNsPart, ha, hb, hl,
            isEmpty_false_of_ne huri]
  | a :: b :: c :: l =>
    have h3 : (a :: b :: c :: l).length > 2 := by simp
    simp only [Schema.resolveRefParts, resolveRefAmendedParts, h3, or_true, if_true]
    split <;> rfl

/-- Witness for the amended C5: a one-separator name with empty alias resolves
against the schema's own namespace. -/
theorem claim_C5_witness :
    Schema.resolveRef schW5 ":foo" = resolveRefAmended schW5 ":foo" :=
  claim_C5 schW5 ":foo" (by decide) (by intro p hp; simp [schW5, Schema.new] at hp)

/-! ## Claim C4 -/

theorem jsonStringify_ne_empty (s : String) : jsonStringify s ≠ "" :=
  append_ne_empty_right _ _ (by decide)

/-- Claim C4: a `SimpleType` with non-empty enumeration ignores its
restriction base and renders the union, in order, of each value's JSON-quoted
literal, followed by the bare numeric literal for each syntactically numeric
value. -/
theorem claim_C4 (ctx : Context) (st : SimpleType) (l : List EnumVariant)
    (h1 : st.enumeration = some l) (h2 : l ≠ []) :
    SimpleType.toTSType ctx st =
      (if st.docsStr.isEmpty then "" else "/**\n" ++ st.docsStr ++ "\n */\n")
        ++ "export type " ++ ctx.getTSTypeName st.name ++ " = "
        ++ joinSep " | " ((l.map (fun v =>
            jsonStringify v.value :: (if isNumericLit v.value then [v.value] else []))).flatten)
        ++ ";" := by
  have hexpr : st.tsTypeStr ctx =
      joinSep " | " ((l.map (fun v =>
        jsonStringify v.value :: (if isNumericLit v.value then [v.value] else []))).flatten) := by
    unfold SimpleType.tsTypeStr
    rw [h1]
    have hne : (l.isEmpty : Bool) = false := by
      cases l with
      | nil => exact absurd rfl h2
      | cons x xs => rfl
    simp only [Option.getD_some, hne, Bool.false_eq_true, if_false]
    have hf : ∀ v : EnumVariant,
        jsonStringify v.value ++ (if isNumericLit v.value then " | " ++ v.value else "") ≠ "" :=
      fun v => append_ne_empty_left _ _ (jsonStringify_ne_empty v.value)
    rw [foldl_sep_eq_joinSep _
      (fun v => jsonStringify v.value ++ (if isNumericLit v.value then " | " ++ v.value else ""))
      " | " (fun b a => by simp [String.append_assoc]) hf l]
    rw [joinSep_flatten " | "
      (fun v => jsonStringify v.value :: (if isNumericLit v.value then [v.value] else []))
      (fun v => by simp) l]
    congr 1
    apply List.map_congr_left
    intro v _
    by_cases hn : isNumericLit v.value = true
    · simp [hn, joinSep, String.append_assoc]
    · rw [Bool.not_eq_true] at hn
      simp [hn, joinSep]
  unfold SimpleType.toTSType
  rw [hexpr]

def stW4 : SimpleType :=
  ⟨"E", ⟨"n", "T"⟩, none, none, none, none, none, none, none,
    some [⟨"1", none⟩, ⟨"2", none⟩]⟩

/-- Witness for C4: enumeration values `"1"`, `"2"` render as the union of
both quoted and bare numeric literals. -/
theorem claim_C4_witness :
    SimpleType.toTSType ctx0 stW4 = "export type E = \"1\" | 1 | \"2\" | 2;" := by
  have h := claim_C4 ctx0 stW4 [⟨"1", none⟩, ⟨"2", none⟩] rfl (by simp)
  rw [h]
  decide

/-! ## Claim C7 -/

theorem foldl_facetStep (opts : List (Option String)) :
    ∀ d : String, d ≠ "" →
      opts.foldl facetStep d
        = d ++ String.join ((opts.reduceOption).map (fun line => "\n" ++ line)) := by
  induction opts with
  | nil => intro d _; simp [List.foldl, List.reduceOption, join_nil]
  | cons o opts ih =>
    intro d hd
    cases o with
    | none =>
      show opts.foldl facetStep (facetStep d none) = _
      rw [show facetStep d none = d from rfl, ih d hd]
      rfl
    | some line =>
      show opts.foldl facetStep (facetStep d (some line)) = _
      have hstep : facetStep d (some line) = d ++ "\n" ++ line := by
        unfold facetStep
        rw [isEmpty_false_of_ne hd]
        rfl
      rw [hstep, ih _ (append_ne_empty_left _ _ (append_ne_empty_left _ _ hd))]
      show _ = d ++ String.join (((line :: opts.reduceOption)).map (fun l => "\n" ++ l))
      simp [join_cons, String.append_assoc]

/-- Claim C7: when at least one facet is set, the doc comment carries one line
per facet present, in the fixed order Min, Total digits, Fraction digits,
Min length, Max length, Pattern (so `Max length` precedes `Pattern`). -/
theorem claim_C7 (ctx : Context) (st : SimpleType) (h : st.anyFacet = true) :
    SimpleType.toTSType ctx st =
      "/**\n" ++ st.preFacetDocs ++ "\n *"
        ++ String.join ((st.facetLineOpts.reduceOption).map (fun line => "\n" ++ line))
        ++ "\n */\n"
        ++ "export type " ++ ctx.getTSTypeName st.name ++ " = " ++ st.tsTypeStr ctx ++ ";" := by
  have hd : st.preFacetDocs ++ "\n *" ≠ "" := append_ne_empty_right _ _ (by decide)
  have hdocs : st.docsStr
      = st.preFacetDocs ++ "\n *"
        ++ String.join ((st.facetLineOpts.reduceOption).map (fun line => "\n" ++ line)) := by
    unfold SimpleType.docsStr
    rw [h]
    simp only [if_true]
    exact foldl_facetStep st.facetLineOpts _ hd
  have hne : st.docsStr ≠ "" := by
    rw [hdocs]
    exact append_ne_empty_left _ _ hd
  unfold SimpleType.toTSType
  rw [isEmpty_false_of_ne hne, hdocs]
  simp [String.append_assoc]

def stW7 : SimpleType :=
  ⟨"F", ⟨"n", "T"⟩, none, none, none, none, none, some (.fin 5), some "x+", none⟩

/-- Witness for C7: with `maxLength` and `pattern` set, `Max length` is listed
before `Pattern`. -/
theorem claim_C7_witness :
    SimpleType.toTSType ctx0 stW7 =
      "/**\n\n *\n * Max length: 5\n * Pattern: /x+/\n */\nexport type F = unknown;" := by
  have h := claim_C7 ctx0 stW7 rfl
  rw [h]
  decide

/-! ## Claim C1 -/

/-- The cross-variant `undefined` fields a member owes to the other variants:
for every variant other than the `i`-th, in order, one `name?: undefined;`
line per element. -/
def crossJoin (variants : List (List Element)) (i : Nat) : String :=
  String.join (variants.enum.map (fun ov =>
    if ov.1 = i then ""
    else String.join (ov.2.map (fun e => "\n" ++ "  " ++ e.name ++ "?: undefined;"))))

/-- One member of the rendered variant union: the variant's own fields
(via `Element.toTSField`), then the other variants' `undefined` fields. -/
def memberStr (ctx : Context) (variants : List (List Element))
    (iv : Nat × List Element) : String :=
  "\x7b\n" ++ prefixLines (joinSep "\n" (iv.2.map (Element.toTSField ctx false))) "  "
    ++ crossJoin variants iv.1 ++ "\n\x7d"

/-- The attribute-record intersection part of `ComplexType.toTSTypeExpr`. -/
def attrsBlock (ctx : Context) (attrs : List Attribute) : String :=
  if attrs.isEmpty then ""
  else
    " & \x7b\n" ++ prefixLines (joinSep "\n" (attrs.map (Attribute.toTSField ctx))) "  "
      ++ "\n\x7d"

theorem prefixLines_empty : prefixLines "" "  " = "  " := rfl

theorem crossUndefs_eq (variants : List (List Element)) (i : Nat) (body : String) :
    crossUndefs variants i body = body ++ crossJoin variants i := by
  unfold crossUndefs crossJoin
  apply foldl_extension
  intro b ov
  by_cases hov : ov.1 = i
  · simp [hov]
  · simp only [hov, Bool.false_eq_true, if_false]
    rw [foldl_extension _ (fun e => "\n" ++ "  " ++ e.name ++ "?: undefined;")
      (fun b e => by rw [prefixLines_empty]; simp [String.append_assoc]) ov.2 b]

theorem assembleBody_eq (variants : List (List Element)) (texts : List String) :
    assembleBody variants texts =
      joinSep " | " (texts.enum.map (fun it =>
        "\x7b\n" ++ prefixLines it.2 "  " ++ crossJoin variants it.1 ++ "\n\x7d")) := by
  unfold assembleBody
  rw [foldl_sep_eq_joinSep _
    (fun it => "\x7b\n" ++ prefixLines it.2 "  " ++ crossJoin variants it.1 ++ "\n\x7d")
    " | "
    (fun b it => by rw [crossUndefs_eq]; simp [String.append_assoc])
    (fun it => append_ne_empty_right _ _ (by decide))
    texts.enum]

theorem fieldTexts_eq (ctx : Context) (l : List Element) :
    fieldTexts ctx l = l.map (Element.toTSField ctx false) := by
  induction l with
  | nil => rfl
  | cons e es ih => simp [fieldTexts, ih]

theorem variantFieldTexts_eq (ctx : Context) (vs : List (List Element)) :
    variantFieldTexts ctx vs
      = vs.map (fun v => joinSep "\n" (v.map (Element.toTSField ctx false))) := by
  induction vs with
  | nil => rfl
  | cons v vs ih => simp [variantFieldTexts, ih, fieldTexts_eq]

/-- Claim C1: with two or more variants, the rendered expression intersects
the `XmlElement` base (and attribute record) with the parenthesised union
having one member per variant, each member holding that variant's fields
followed by every other variant's element names typed `undefined`; with
exactly one variant, its record is intersected directly, without union
wrapper or cross-variant fields. -/
theorem claim_C1 (ctx : Context) (ct : ComplexType) :
    (2 ≤ ct.variants.length →
      ComplexType.toTSTypeExpr ctx ct =
        "XmlElement" ++ attrsBlock ctx ct.attributes
          ++ " & (" ++ joinSep " | " (ct.variants.enum.map (memberStr ctx ct.variants))
          ++ ")")
    ∧ (∀ v, ct.variants = [v] →
      ComplexType.toTSTypeExpr ctx ct =
        "XmlElement" ++ attrsBlock ctx ct.attributes
          ++ " & \x7b\n"
          ++ prefixLines (joinSep "\n" (v.map (Element.toTSField ctx false))) "  "
          ++ "\n\x7d") := by
  obtain ⟨nm, an, variants, attrs⟩ := ct
  simp only [ComplexType.variants, ComplexType.attributes]
  have hbase :
      (if attrs.isEmpty then ("XmlElement" : String)
        else "XmlElement" ++ " & \x7b\n"
          ++ prefixLines (joinSep "\n" (attrs.map (Attribute.toTSField ctx))) "  "
          ++ "\n\x7d")
      = "XmlElement" ++ attrsBlock ctx attrs := by
    by_cases ha : attrs.isEmpty
    · simp [ha, attrsBlock]
    · rw [if_neg ha]
      unfold attrsBlock
      rw [if_neg ha]
      simp only [String.append_assoc]
  constructor
  · intro h2
    have hvne : variants.isEmpty = false := by
      cases variants with
      | nil => simp at h2
      | cons v vs => rfl
    have hgt : variants.length > 1 := h2
    show ComplexType.toTSTypeExpr ctx (.mk nm an variants attrs) = _
    rw [ComplexType.toTSTypeExpr]
    simp only [hvne, Bool.false_eq_true, if_false, hgt, if_true]
    rw [hbase]
    rw [variantFieldTexts_eq, assembleBody_eq]
    have hmap :
        ((variants.map (fun v => joinSep "\n" (v.map (Element.toTSField ctx false)))).enum.map
          (fun it => "\x7b\n" ++ prefixLines it.2 "  " ++ crossJoin variants it.1 ++ "\n\x7d"))
        = variants.enum.map (memberStr ctx variants) := by
      rw [List.enum_map]
      rw [List.map_map]
      apply List.map_congr_left
      intro iv _
      obtain ⟨i, v⟩ := iv
      rfl
    rw [hmap]
    have hne : "XmlElement" ++ attrsBlock ctx attrs ++ " & "
        ++ ("(" ++ joinSep " | " (variants.enum.map (memberStr ctx variants)) ++ ")") ≠ "" := by
      apply append_ne_empty_left
      apply append_ne_empty_left
      apply append_ne_empty_left
      decide
    rw [show ∀ S : String, S ≠ "" → jsOr S "unknown" = S from
      fun S hS => by unfold jsOr; rw [isEmpty_false_of_ne hS]; rfl]
    · simp only [String.append_assoc]
      rfl
    · exact hne
  · intro v hv
    subst hv
    show ComplexType.toTSTypeExpr ctx (.mk nm an [v] attrs) = _
    rw [ComplexType.toTSTypeExpr]
    simp only [List.isEmpty_cons, Bool.false_eq_true, if_false]
    rw [hbase]
    have hlen : ¬([v].length > 1) := by simp
    simp only [hlen, if_false]
    have hbody : assembleBody [v] (variantFieldTexts ctx [v])
        = "\x7b\n" ++ prefixLines (joinSep "\n" (v.map (Element.toTSField ctx false))) "  "
          ++ "\n\x7d" := by
      rw [variantFieldTexts_eq, assembleBody_eq]
      have hj : String.join [""] = "" := rfl
      simp [joinSep, crossJoin, hj, String.append_assoc]
    rw [hbody]
    have hne : "XmlElement" ++ attrsBlock ctx attrs ++ " & "
        ++ ("\x7b\n" ++ prefixLines (joinSep "\n" (v.map (Element.toTSField ctx false))) "  "
          ++ "\n\x7d") ≠ "" := by
      apply append_ne_empty_left
      apply append_ne_empty_left
      apply append_ne_empty_left
      decide
    rw [show ∀ S : String, S ≠ "" → jsOr S "unknown" = S from
      fun S hS => by unfold jsOr; rw [isEmpty_false_of_ne hS]; rfl]
    · simp only [String.append_assoc]
      rfl
    · exact hne

def eW1a : Element := .mk "a" (.ref ⟨"n", "T"⟩) (.fin 1) (.fin 1) none

def eW1b : Element := .mk "b" (.ref ⟨"n", "T"⟩) (.fin 0) .inf none

def ctW1 : ComplexType := .mk "C" none [[eW1a], [eW1b]] []

/-- Witness for C1: a two-variant choice renders as a union whose members
cross-mark the other variant's field as `undefined`. -/
theorem claim_C1_witness :
    ComplexType.toTSTypeExpr ctx0 ctW1 =
      "XmlElement & (\x7b\n  a: unknown;\n  b?: undefined;\n\x7d | \x7b\n  b?: Many<unknown>;\n  a?: undefined;\n\x7d)" := by
  have h := (claim_C1 ctx0 ctW1).1 (by decide)
  rw [h]
  decide

/-! ## Claim C8 -/

/-- Every successful `Element.fromXsd` result goes through the shared
occurrence-handling tail, whatever branch produced the name and type. -/
theorem fromXsd_ok_elementOccurs (ctx : Context) (schema : Schema)
    (rf : Option String) (n : String) (t : Option String)
    (c : Option XsComplexTypeBody) (mi ma : Option JsValue)
    (an : Option (JsMany XsAnnotationNode)) (e : Element)
    (h : Element.fromXsd ctx schema (.mk rf n t c mi ma an) = .ok e) :
    ∃ (name : String) (ty : ElementType), e = elementOccurs mi ma an name ty := by
  rw [Element.fromXsd.eq_def] at h
  simp only at h
  cases rf with
  | some r =>
    simp only at h
    cases hr : schema.resolveRef r with
    | none => rw [hr] at h; simp at h
    | some ref =>
      rw [hr] at h
      simp only at h
      cases hl : (lookupMap ctx.schemas ref.1).bind (fun s => lookupMap s.elements ref.2) with
      | none => rw [hl] at h; simp at h
      | some el =>
        rw [hl] at h
        simp only [Except.ok.injEq] at h
        exact ⟨el.name, el.type, h.symm⟩
  | none =>
    simp only at h
    cases t with
    | some t0 =>
      simp only at h
      cases ht : TypeReference.fromXsd schema t0 with
      | error msg => rw [ht] at h; simp at h
      | ok tr =>
        rw [ht] at h
        simp only [Except.ok.injEq] at h
        exact ⟨n, .ref tr, h.symm⟩
    | none =>
      simp only at h
      cases c with
      | some b =>
        simp only at h
        cases hb : ComplexType.fromXsdBody ctx schema n b with
        | error msg => rw [hb] at h; simp at h
        | ok ct =>
          rw [hb] at h
          simp only [Except.ok.injEq] at h
          exact ⟨n, .inline ct, h.symm⟩
      | none =>
        simp only [Except.ok.injEq] at h
        exact ⟨n, .inline (.mk n none [] []), h.symm⟩

/-- Claim C8: a present `@_maxOccurs` attribute that parsed to the number `0`
is falsy, so `Element.fromXsd` keeps the default unbounded `maxOccurs` and the
rendered field is wrapped in `Many`. -/
theorem claim_C8 (ctx : Context) (schema : Schema) (node : XsElementNode)
    (e : Element)
    (h1 : node.maxOccursAttr = some (.num (.fin 0)))
    (h2 : Element.fromXsd ctx schema node = .ok e) :
    e.maxOccurs = JsNum.inf
    ∧ Element.toTSField ctx false e =
        elementDocsStr false e ++ e.name ++ (if e.minOccurs.eqZero then "?" else "")
          ++ ": Many<" ++ ElementType.exprStr ctx e.type ++ ">;" := by
  obtain ⟨rf, n, t, c, mi, ma, an⟩ := node
  simp only [XsElementNode.maxOccursAttr] at h1
  subst h1
  obtain ⟨name, ty, he⟩ := fromXsd_ok_elementOccurs ctx schema rf n t c mi _ an e h2
  have hmax : e.maxOccurs = JsNum.inf := by
    rw [he]
    rfl
  refine ⟨hmax, ?_⟩
  rw [toTSField_closed, hmax]
  simp only [JsNum.gtOne, if_true]
  simp only [String.append_assoc]
  rfl

def nodeW8 : XsElementNode :=
  .mk none "el" (some "T") none none (some (.num (.fin 0))) none

def eW8 : Element := .mk "el" (.ref ⟨"ns", "T"⟩) (.fin 0) .inf none

/-- Witness for C8: a `maxOccurs="0"`-style node (parsed to the number `0`)
ingests with unbounded `maxOccurs` and renders a `Many`-wrapped field. -/
theorem claim_C8_witness :
    eW8.maxOccurs = JsNum.inf
    ∧ Element.toTSField ctx0 false eW8 =
        elementDocsStr false eW8 ++ eW8.name ++ (if eW8.minOccurs.eqZero then "?" else "")
          ++ ": Many<" ++ ElementType.exprStr ctx0 eW8.type ++ ">;" :=
  claim_C8 ctx0 schW2 nodeW8 eW8 rfl rfl

/-! ## Claim C3 -/

theorem lookup_setMap_self {α : Type} (m : List (String × α)) (k : String) (v : α) :
    lookupMap (setMap m k v) k = some v := by
  induction m with
  | nil => simp [setMap, lookupMap, List.find?]
  | cons p rest ih =>
    obtain ⟨k', v'⟩ := p
    by_cases hk : k' = k
    · simp [setMap, hk, lookupMap, List.find?]
    · have ih' : Option.map (fun p => p.2)
          (List.find? (fun p => decide (p.1 = k)) (setMap rest k v)) = some v := ih
      simp [setMap, hk, lookupMap, List.find?, ih']

theorem setMap_setMap {α : Type} (m : List (String × α)) (k : String) (v w : α) :
    setMap (setMap m k v) k w = setMap m k w := by
  induction m with
  | nil => simp [setMap]
  | cons p rest ih =>
    obtain ⟨k', v'⟩ := p
    by_cases hk : k' = k
    · simp [setMap, hk]
    · simp [setMap, hk, ih]

theorem countKey_setMap_none {α : Type} (m : List (String × α)) (k : String) (v : α)
    (h : lookupMap m k = none) : countKey (setMap m k v) k = 1 := by
  induction m with
  | nil => simp [setMap, countKey]
  | cons p rest ih =>
    obtain ⟨k', v'⟩ := p
    by_cases hk : k' = k
    · subst hk
      simp [lookupMap, List.find?] at h
    · have h' : lookupMap rest k = none := by
        simpa [lookupMap, List.find?, hk] using h
      have ih' := ih h'
      simp only [countKey] at ih'
      simp [setMap, hk, countKey, List.filter, ih']

theorem except_bind_ok {α β : Type} {x : Except String α} {f : α → Except String β}
    {b : β} (h : (x >>= f) = .ok b) : ∃ a, x = .ok a ∧ f a = .ok b := by
  cases x with
  | error e => simp [Bind.bind, Except.bind] at h
  | ok a => exact ⟨a, rfl, by simpa [Bind.bind, Except.bind] using h⟩

theorem simpleType_fromXsd_name (schema : Schema) (node : XsSimpleTypeNode)
    (A : SimpleType) (h : SimpleType.fromXsd schema node = .ok A) :
    A.name = node.nameAttr := by
  unfold SimpleType.fromXsd at h
  cases ht : TypeReference.fromXsd schema node.restrictionBase with
  | error e =>
    rw [ht] at h
    simp [Bind.bind, Except.bind] at h
  | ok tr =>
    rw [ht] at h
    simp only [Bind.bind, Except.bind, pure, Except.pure, Except.ok.injEq] at h
    rw [← h]

theorem simpleType_toTSType_ne (ctx : Context) (st : SimpleType) :
    SimpleType.toTSType ctx st ≠ "" :=
  append_ne_empty_right _ _ (by decide)

/-- A schema holding exactly two type registrations and no elements renders
the two declarations blank-line separated. -/
theorem schema_toTS_two (ctx : Context) (o : Schema) (n1 n2 : String)
    (T1 T2 : TypeDefinition)
    (ht : o.types = [(n1, T1), (n2, T2)]) (helem : o.elements = [])
    (h1 : TypeDefinition.toTSType ctx T1 ≠ "") (h2 : TypeDefinition.toTSType ctx T2 ≠ "") :
    Schema.toTS ctx o
      = TypeDefinition.toTSType ctx T1 ++ "\n\n" ++ TypeDefinition.toTSType ctx T2 := by
  unfold Schema.toTS
  rw [ht, helem]
  simp only [List.map, List.foldl]
  have e1 : tsBlockStep "" (TypeDefinition.toTSType ctx T1)
      = TypeDefinition.toTSType ctx T1 := by
    unfold tsBlockStep
    rw [isEmpty_false_of_ne h1]
    rw [show ("" : String).isEmpty = true from rfl]
    simp
  rw [e1]
  unfold tsBlockStep
  rw [isEmpty_false_of_ne h2, isEmpty_false_of_ne h1]
  simp

/-- Claim C3: two documents declaring the same target namespace merge into a
single Schema (created by the first ingest, reused by the second), whose types
map and rendered block carry both declarations. -/
theorem claim_C3 (ctx0v ctx1 ctx2 : Context) (d1 d2 : XsSchemaNode) (ns : String)
    (t1 t2 : XsSimpleTypeNode)
    (hn1 : d1.targetNamespace = ns) (hn2 : d2.targetNamespace = ns)
    (he1 : d1.elements = []) (hc1 : d1.complexTypes = []) (hs1 : d1.simpleTypes = [t1])
    (he2 : d2.elements = []) (hc2 : d2.complexTypes = []) (hs2 : d2.simpleTypes = [t2])
    (hname : t1.nameAttr ≠ t2.nameAttr)
    (h0 : lookupMap ctx0v.schemas ns = none)
    (hi1 : Schema.fromXsd ctx0v d1 = .ok ctx1)
    (hi2 : Schema.fromXsd ctx1 d2 = .ok ctx2) :
    ∃ (o : Schema) (A B : SimpleType),
      lookupMap ctx2.schemas ns = some o
      ∧ countKey ctx2.schemas ns = 1
      ∧ A.name = t1.nameAttr ∧ B.name = t2.nameAttr
      ∧ o.types = [(t1.nameAttr, .simple A), (t2.nameAttr, .simple B)]
      ∧ Schema.toTS ctx2 o
          = SimpleType.toTSType ctx2 A ++ "\n\n" ++ SimpleType.toTSType ctx2 B := by
  obtain ⟨ns1, xa1, els1, sts1, cts1⟩ := d1
  obtain ⟨ns2, xa2, els2, sts2, cts2⟩ := d2
  simp only [XsSchemaNode.targetNamespace] at hn1 hn2
  simp only [XsSchemaNode.elements] at he1 he2
  simp only [XsSchemaNode.complexTypes] at hc1 hc2
  simp only [XsSchemaNode.simpleTypes] at hs1 hs2
  subst hn1 hn2 he1 hc1 hs1 he2 hc2 hs2
  unfold Schema.fromXsd at hi1
  simp only [h0] at hi1
  simp only [Context.updateSchema, Context.schemaAt, lookup_setMap_self, setMap_setMap,
    Schema.new, ingestElements, ingestSimpleTypes, ingestComplexTypes, List.foldlM,
    Option.getD_some, pure_bind, bind_pure] at hi1
  obtain ⟨A, hA, hctx1⟩ := except_bind_ok hi1
  have hAname : A.name = t1.nameAttr := simpleType_fromXsd_name _ _ _ hA
  have hctx1e : ctx1 = ⟨setMap ctx0v.schemas ns2
      ⟨ns2, List.foldl (fun m p => setMap m p.1 p.2) [] xa1, [],
        setMap [] A.name (.simple A)⟩,
      ctx0v.stripPrefixes, ctx0v.attrPrefix⟩ := by
    have hh := hctx1
    simp only [pure, Except.pure, Except.ok.injEq] at hh
    exact hh.symm
  subst hctx1e
  unfold Schema.fromXsd at hi2
  simp only [Context.updateSchema, Context.schemaAt, lookup_setMap_self, setMap_setMap,
    Schema.new, ingestElements, ingestSimpleTypes, ingestComplexTypes, List.foldlM,
    Option.getD_some, pure_bind, bind_pure] at hi2
  obtain ⟨B, hB, hctx2⟩ := except_bind_ok hi2
  have hBname : B.name = t2.nameAttr := simpleType_fromXsd_name _ _ _ hB
  have hctx2e : ctx2 = ⟨setMap ctx0v.schemas ns2
      ⟨ns2, List.foldl (fun m p => setMap m p.1 p.2)
          (List.foldl (fun m p => setMap m p.1 p.2) [] xa1) xa2, [],
        setMap (setMap [] A.name (.simple A)) B.name (.simple B)⟩,
      ctx0v.stripPrefixes, ctx0v.attrPrefix⟩ := by
    have hh := hctx2
    simp only [pure, Except.pure, Except.ok.injEq] at hh
    exact hh.symm
  subst hctx2e
  have htypes : setMap (setMap ([] : List (String × TypeDefinition)) A.name (.simple A))
      B.name (.simple B)
      = [(t1.nameAttr, .simple A), (t2.nameAttr, .simple B)] := by
    rw [hAname, hBname]
    have hne : ¬(t1.nameAttr = t2.nameAttr) := hname
    simp [setMap, hne]
  refine ⟨_, A, B, lookup_setMap_self _ _ _, countKey_setMap_none _ _ _ h0,
    hAname, hBname, ?_, ?_⟩
  · simp only
    exact htypes
  · apply schema_toTS_two _ _ t1.nameAttr t2.nameAttr (.simple A) (.simple B)
    · simp only
      exact htypes
    · rfl
    · exact simpleType_toTSType_ne _ A
    · exact simpleType_toTSType_ne _ B

def t1W : XsSimpleTypeNode := ⟨"A", none, "T", none, none, none, none, none, none, []⟩

def t2W : XsSimpleTypeNode := ⟨"B", none, "T", none, none, none, none, none, none, []⟩

def d1W : XsSchemaNode := ⟨"ns", [], [], [t1W], []⟩

def d2W : XsSchemaNode := ⟨"ns", [], [], [t2W], []⟩

def aW3 : SimpleType := ⟨"A", ⟨"ns", "T"⟩, none, none, none, none, none, none, none, none⟩

def bW3 : SimpleType := ⟨"B", ⟨"ns", "T"⟩, none, none, none, none, none, none, none, none⟩

def ctx1W : Context := ⟨[("ns", ⟨"ns", [], [], [("A", .simple aW3)]⟩)], [], "@_"⟩

def ctx2W : Context :=
  ⟨[("ns", ⟨"ns", [], [], [("A", .simple aW3), ("B", .simple bW3)]⟩)], [], "@_"⟩

/-- Witness for C3: ingesting two one-type documents of the same namespace
leaves a single merged schema rendering both declarations. -/
theorem claim_C3_witness :
    ∃ (o : Schema) (A B : SimpleType),
      lookupMap ctx2W.schemas "ns" = some o
      ∧ countKey ctx2W.schemas "ns" = 1
      ∧ A.name = "A" ∧ B.name = "B"
      ∧ o.types = [("A", .simple A), ("B", .simple B)]
      ∧ Schema.toTS ctx2W o
          = SimpleType.toTSType ctx2W A ++ "\n\n" ++ SimpleType.toTSType ctx2W B :=
  claim_C3 ctx0 ctx1W ctx2W d1W d2W "ns" t1W t2W rfl rfl rfl rfl rfl rfl rfl rfl
    (by decide) rfl rfl rfl

end Xsd2Ts
